import Mathlib

/-!
Verification of the `pysphinx-autoindex` tool (`pysphinx_autoindex/autoindexer.py`).

The development shallowly embeds the script's operations:

* Python strings are embedded as `List Char` (the document patcher) or `String`
  (module names); `str.find` is `pyFind`, Python slice indexing (including
  negative indices) is `pyTake`/`pyDrop`, `str.startswith` is `strStartsWith`,
  and `sorted` over strings is `pySorted` (lexicographic by code point).
* `Autoindexer._generate_docs_index` (together with `_write_index`) becomes
  `generate_docs_index`, returning the raised error or the written content plus
  the list of file writes performed.
* `Autoindexer._traverse_modules` becomes `traverse_modules` over an embedded
  directory tree `FSEntry`; dynamic imports are abstracted by an oracle.
* `Autoindexer._find_classes_in_module` becomes `find_classes_in_module` with
  an import oracle returning either the module members or a raised exception.
* `Autoindexer._sphinx_formatter` becomes `sphinx_formatter`.
-/

/-! ## Python string primitives -/

/-- First index at or after `i` where `pat` occurs in `s`, scanning left to
right; `none` when `pat` does not occur.  This is the search underlying
Python's `str.find`. -/
def findFrom : List Char → List Char → Nat → Option Nat
  | [], pat, i => if pat.isPrefixOf ([] : List Char) then some i else none
  | c :: rest, pat, i =>
    if pat.isPrefixOf (c :: rest) then some i else findFrom rest pat (i + 1)

/-- Python `s.find(pat)`: index of the first occurrence, or `-1`. -/
def pyFind (s pat : List Char) : Int :=
  match findFrom s pat 0 with
  | some n => (n : Int)
  | none => -1

/-- Normalize a Python slice bound: negative indices count from the end and
the result is clamped into `[0, len]`. -/
def pyClampIdx (len : Nat) (i : Int) : Nat :=
  if i < 0 then ((len : Int) + i).toNat else min i.toNat len

/-- Python `s[0:b]`. -/
def pyTake (s : List Char) (b : Int) : List Char :=
  s.take (pyClampIdx s.length b)

/-- Python `s[a:]`. -/
def pyDrop (s : List Char) (a : Int) : List Char :=
  s.drop (pyClampIdx s.length a)

/-- Boolean substring test, via the same search as `pyFind`. -/
def containsSub (s pat : List Char) : Bool :=
  (findFrom s pat 0).isSome

/-- Python `s.startswith(p)`. -/
def strStartsWith (s p : String) : Bool :=
  p.data.isPrefixOf s.data

/-! ## The sentinel markers (class constants of `Autoindexer`) -/

/-- `BEGIN_MARK = '.. pysphinx-autoindex start'`. -/
def BEGIN_MARK : List Char := (".. pysphinx-autoindex start").data

/-- `END_MARK = '.. pysphinx-autoindex end'`. -/
def END_MARK : List Char := (".. pysphinx-autoindex end").data

/-- `INITIAL_MARK = 'Indices and tables'`. -/
def INITIAL_MARK : List Char := ("Indices and tables").data

/-! ## The document patcher: `_generate_docs_index` plus `_write_index` -/

/-- Result of one call to `_generate_docs_index`: the normal return or the
raised `ValueError` message, the content of the index file after the call,
and the sequence of whole-file writes performed by `_write_index`. -/
structure GenerateResult where
  result : Except String Unit
  fileContent : List Char
  writes : List (List Char)
deriving Repr

/-- The spliced output document: `docs_source[0:replace_start]`, the leading
separator, begin marker, rendered body, end marker, trailing separator and
`docs_source[replace_end:]`, exactly as the `format` call composes it. -/
def spliced (docs_source sphinx_data leading trailing : List Char)
    (replace_start replace_end : Int) : List Char :=
  pyTake docs_source replace_start ++ leading ++ BEGIN_MARK ++ sphinx_data ++
    END_MARK ++ trailing ++ pyDrop docs_source replace_end

/-- Embedding of `Autoindexer._generate_docs_index` (with the final
`_write_index` call).  `docs_source` is the current content of the index
file, `sphinx_data` the rendered body.  Mirrors the source exactly,
including the truthiness tests `if not initial_mark_location` and
`if not end_mark_location`, which compare the found index with `0`. -/
def generate_docs_index (docs_source sphinx_data : List Char) : GenerateResult :=
  if pyFind docs_source BEGIN_MARK < 0 then
    if pyFind docs_source INITIAL_MARK = 0 then
      { result := Except.error
          ("Cannot find where to write automodule, index.rst does not have Indices and tables"),
        fileContent := docs_source, writes := [] }
    else
      { result := Except.ok (),
        fileContent := spliced docs_source sphinx_data [] [Char.ofNat 10, Char.ofNat 10]
          (pyFind docs_source INITIAL_MARK) (pyFind docs_source INITIAL_MARK),
        writes := [spliced docs_source sphinx_data [] [Char.ofNat 10, Char.ofNat 10]
          (pyFind docs_source INITIAL_MARK) (pyFind docs_source INITIAL_MARK)] }
  else
    if pyFind docs_source END_MARK = 0 then
      { result := Except.error
          ("Corrupted index.rst file, please clear the autogenerated area under .. pysphinx-autoindex start"),
        fileContent := docs_source, writes := [] }
    else
      { result := Except.ok (),
        fileContent := spliced docs_source sphinx_data [Char.ofNat 10] []
          (pyFind docs_source BEGIN_MARK) (pyFind docs_source END_MARK + (END_MARK.length : Int)),
        writes := [spliced docs_source sphinx_data [Char.ofNat 10] []
          (pyFind docs_source BEGIN_MARK) (pyFind docs_source END_MARK + (END_MARK.length : Int))] }

/-- The managed region of a document: the span from the first occurrence of
the begin marker through the end of the first occurrence of the end marker
(present only when both markers occur). -/
def managedRegion (doc : List Char) : Option (List Char) :=
  match findFrom doc BEGIN_MARK 0, findFrom doc END_MARK 0 with
  | some b, some e => some ((doc.drop b).take (e + END_MARK.length - b))
  | _, _ => none

/-! ## The inclusion filter: `_include_module` -/

/-- Embedding of `Autoindexer._include_module`: `True` when the prefix list
is empty (falsy), otherwise `True` iff the dotted name starts with one of the
prefixes. -/
def include_module (module_prefixes : List String) (module_name : String) : Bool :=
  if module_prefixes = [] then true
  else module_prefixes.any fun module_prefix => strStartsWith module_name module_prefix

/-! ## The tree walker: `_traverse_modules` -/

/-- Embedded directory tree entry: a plain file or a directory, each with its
bare name; directories carry their child entries. -/
inductive FSEntry where
  | file (name : String)
  | dir (name : String) (entries : List FSEntry)

/-- Bare filename of an entry. -/
def FSEntry.name : FSEntry → String
  | FSEntry.file n => n
  | FSEntry.dir n _ => n

/-- The `os.path.isfile(full_file + '/__init__.py')` test: the directory
contains a plain file named `__init__.py`. -/
def hasInitFile (entries : List FSEntry) : Bool :=
  entries.any fun e =>
    match e with
    | FSEntry.file n => n = ("__init__.py")
    | FSEntry.dir _ _ => false

/-- `Autoindexer.SKIPPED_FILENAMES`. -/
def SKIPPED_FILENAMES : List String := ["__init__.py", "setup.py", "tests"]

/-- Index of the last dot in a name, if any (Python `str.rfind('.')`). -/
def rfindDot : List Char → Option Nat
  | [] => none
  | c :: rest =>
    match rfindDot rest with
    | some i => some (i + 1)
    | none => if c = ('.' : Char) then some 0 else none

/-- Embedding of `os.path.splitext` on a bare filename (no path separator):
split at the last dot, unless every character before it is itself a dot
(so a leading-dots-only stem, as in `.bashrc` or `..py`, has no extension). -/
def pySplitext (name : String) : String × String :=
  match rfindDot name.data with
  | none => (name, "")
  | some d =>
    if (name.data.take d).any (fun c => decide (c ≠ ('.' : Char))) then
      (String.mk (name.data.take d), String.mk (name.data.drop d))
    else (name, "")

/-- Dotted module name of an entry under an optional parent module name
(`'{}.{}'.format(parent_module_name, module_name)` when a parent exists). -/
def qualifyName (parent : Option String) (name : String) : String :=
  match parent with
  | none => name
  | some p => p ++ ("." : String) ++ name

/-- Python `dict` assignment `d[k] = v`: replace the value in place when the
key exists, otherwise append the pair. -/
def dictInsert (d : List (String × List String)) (k : String) (v : List String) :
    List (String × List String) :=
  if d.any (fun p => p.1 = k) then d.map (fun p => if p.1 = k then (k, v) else p)
  else d ++ [(k, v)]

mutual

/-- Embedding of `Autoindexer._traverse_modules`: walk the entries of a
directory, building the dotted-module-name to class-set mapping.  The class
sets come from the oracle `findClasses`, which stands for
`_find_classes_in_module` (whose result depends on the interpreter state,
not on the tree).  The `modules` parameter is the dict being built (the
top-level call passes `[]`, Python's fresh `modules = {}`); entries are
processed in listing order, and the recursion into a sub-package merges the
child mapping into the same dict, as `modules.update(...)` does. -/
def traverse_modules (module_prefixes : List String) (findClasses : String → List String) :
    List FSEntry → Option String → List (String × List String) → List (String × List String)
  | [], _, modules => modules
  | e :: rest, parent, modules =>
    traverse_modules module_prefixes findClasses rest parent
      (traverse_entry module_prefixes findClasses e parent modules)

/-- Effect of a single directory entry on the mapping, following the body of
the `for f in os.listdir(start_dir)` loop: skip-set names are ignored; a
directory containing `__init__.py` is recorded (guarded by
`_include_module`) and recursed into; a file with extension `.py` is
recorded unconditionally; everything else is skipped. -/
def traverse_entry (module_prefixes : List String) (findClasses : String → List String) :
    FSEntry → Option String → List (String × List String) → List (String × List String)
  | FSEntry.file n, parent, modules =>
    if n ∈ SKIPPED_FILENAMES then modules
    else if (pySplitext n).2 = (".py") then
      dictInsert modules (qualifyName parent (pySplitext n).1)
        (findClasses (qualifyName parent (pySplitext n).1))
    else modules
  | FSEntry.dir n sub, parent, modules =>
    if n ∈ SKIPPED_FILENAMES then modules
    else if hasInitFile sub then
      if include_module module_prefixes (qualifyName parent n) then
        traverse_modules module_prefixes findClasses sub (some (qualifyName parent n))
          (dictInsert modules (qualifyName parent n) (findClasses (qualifyName parent n)))
      else modules
    else modules

end

/-! ## The class discoverer: `_find_classes_in_module` -/

/-- A live member of an imported module as seen by `inspect.getmembers`:
its member name in the module, whether it is a class, and (for classes)
its `__module__` and `__name__` attributes. -/
structure PyMember where
  memberName : String
  isClass : Bool
  objModule : String
  objName : String

/-- Python `set.add`. -/
def setAdd (s : List String) (x : String) : List String :=
  if x ∈ s then s else s ++ [x]

/-- Embedding of `Autoindexer._find_classes_in_module`.  The oracle
`importMembers` stands for `importlib.import_module` followed by
`inspect.getmembers`: it returns the member list, or the exception message
when any step of the import or inspection raises.  The result is the class
set together with the lines printed to standard output. -/
def find_classes_in_module (module_prefixes : List String)
    (importMembers : String → Except String (List PyMember)) (module_name : String) :
    List String × List String :=
  match importMembers module_name with
  | Except.error ex => ([], [("error finding classes in module: ") ++ ex])
  | Except.ok members =>
    (members.foldl
      (fun classes m =>
        if m.isClass && include_module module_prefixes m.objModule then
          setAdd classes m.objName
        else classes)
      [], [])

/-! ## The render formatter: `_sphinx_formatter` -/

/-- Python string `<=`: lexicographic comparison by code point. -/
def lexLe : List Char → List Char → Bool
  | [], _ => true
  | _ :: _, [] => false
  | a :: as, b :: bs => if a = b then lexLe as bs else decide (a.toNat < b.toNat)

/-- The order used by Python `sorted` on strings, as a relation. -/
def pyStrLe (a b : String) : Prop := lexLe a.data b.data = true

instance : DecidableRel pyStrLe := fun a b =>
  inferInstanceAs (Decidable (lexLe a.data b.data = true))

/-- Python `sorted` on a list of strings. -/
def pySorted (l : List String) : List String := List.insertionSort pyStrLe l

/-- The `automodule` block appended per module. -/
def automoduleBlock (mod : String) : String :=
  ("\n.. automodule:: ") ++ mod ++ ("\n    :members: \n")

/-- The `autoclass` block appended per class. -/
def autoclassBlock (cl : String) : String :=
  ("\n.. autoclass:: ") ++ cl ++ ("\n    :members: \n")

/-- Python `modules[mod]` for the formatter. -/
def dictGet (modules : List (String × List String)) (mod : String) : List String :=
  match modules.lookup mod with
  | some v => v
  | none => []

/-- Embedding of `Autoindexer._sphinx_formatter`: starting from the empty
string, iterate over the sorted module names; for each, append the
`automodule` block, then the `autoclass` block of each of its classes in
sorted order. -/
def sphinx_formatter (modules : List (String × List String)) : String :=
  (pySorted (modules.map Prod.fst)).foldl
    (fun data mod =>
      (pySorted (dictGet modules mod)).foldl
        (fun d cl => d ++ autoclassBlock cl)
        (data ++ automoduleBlock mod))
    ("")

/-! ## The `run` entry point and the module's global namespace -/

/-- Names bound at module scope of `autoindexer.py` when the file has been
executed: `importlib`, `inspect`, `os` are imported at the top of the file
and the `Autoindexer` class is defined there; `sys` (and the command-line
bindings) are bound only by the `if __name__ == '__main__'` block, which
executes only when the file runs as a script. -/
def moduleTopLevelNames (ranAsMain : Bool) : List String :=
  ["importlib", "inspect", "os", "Autoindexer"] ++
    (if ranAsMain then ["sys", "project_root", "index_rst_location", "module_prefixes"] else [])

/-- The observable steps of `Autoindexer.run` after its first statement. -/
inductive RunEvent where
  | traversal
  | fileWrite
deriving DecidableEq

/-- Embedding of `Autoindexer.run`: its first statement is
`sys.path.append(self.project_root)`, so the global name `sys` is looked up
before anything else; when the lookup fails Python raises `NameError` and
neither the traversal nor the index write happens.  Otherwise the traversal
and the document patch run in sequence. -/
def run_model (ranAsMain : Bool) : Except String (List RunEvent) :=
  if ("sys" : String) ∈ moduleTopLevelNames ranAsMain then
    Except.ok [RunEvent.traversal, RunEvent.fileWrite]
  else
    Except.error ("NameError: name sys is not defined")

example : pySplitext ("other_mod.py") = (("other_mod"), (".py")) := by decide
example : pySplitext (".py") = ((".py"), ("")) := by decide
example :
    traverse_modules ["proj_"] (fun _ => []) [FSEntry.file ("other_mod.py")] none [] =
      [(("other_mod"), [])] := by decide
example :
    traverse_modules ["proj_"] (fun _ => [])
      [FSEntry.dir ("proj_core") [FSEntry.file ("__init__.py")],
       FSEntry.dir ("other_pkg") [FSEntry.file ("__init__.py")]] none [] =
      [(("proj_core"), [])] := by decide
example :
    traverse_modules ["a.b"] (fun _ => [])
      [FSEntry.dir ("a") [FSEntry.file ("__init__.py"),
        FSEntry.dir ("b") [FSEntry.file ("__init__.py")]]] none [] = [] := by decide
set_option maxRecDepth 10000 in
example :
    sphinx_formatter [(("alpha"), [("Z"), ("A")]), (("beta"), [("M")])] =
      ("\n.. automodule:: alpha\n    :members: \n\n.. autoclass:: A\n    :members: \n" ++
       "\n.. autoclass:: Z\n    :members: \n\n.. automodule:: beta\n    :members: \n" ++
       "\n.. autoclass:: M\n    :members: \n") := by decide
example : run_model false = Except.error ("NameError: name sys is not defined") := rfl
example :
    find_classes_in_module ["p"] (fun _ => Except.error ("boom")) ("m") =
      ([], [("error finding classes in module: boom")]) := by decide

example : pyFind (("ab.. pysphinx-autoindex startcd").data) BEGIN_MARK = 2 := by decide
example : pyFind (("hello").data) BEGIN_MARK = -1 := by decide
example : pyTake (("hello").data) (-1) = ("hell").data := by decide
example : pyDrop (("hello").data) (-1) = ("o").data := by decide
example :
    (generate_docs_index (("hello").data) (("B").data)).result.isOk = true := by decide

/-! ## Claim C5: one write, after full composition, none on error -/

/-- C5: for every run of the document-patching operation, the target file is
written at most once and only with the fully composed new document; when the
operation raises, no write happens and the file content is unchanged. -/
theorem c5_single_write_only_after_composition (docs_source sphinx_data : List Char) :
    ((generate_docs_index docs_source sphinx_data).result = Except.ok () ∧
      (generate_docs_index docs_source sphinx_data).writes =
        [(generate_docs_index docs_source sphinx_data).fileContent]) ∨
    ((generate_docs_index docs_source sphinx_data).result.isOk = false ∧
      (generate_docs_index docs_source sphinx_data).writes = [] ∧
      (generate_docs_index docs_source sphinx_data).fileContent = docs_source) := by
  unfold generate_docs_index
  split
  · split
    · exact Or.inr ⟨rfl, rfl, rfl⟩
    · exact Or.inl ⟨rfl, rfl⟩
  · split
    · exact Or.inr ⟨rfl, rfl, rfl⟩
    · exact Or.inl ⟨rfl, rfl⟩

/-! ## Claim C6: import failures are swallowed -/

/-- C6: whenever importing or inspecting a module raises, the class
discoverer catches the exception, prints the error line, and returns the
empty class set; it never propagates the failure. -/
theorem c6_import_failure_swallowed (module_prefixes : List String)
    (importMembers : String → Except String (List PyMember)) (module_name ex : String)
    (h : importMembers module_name = Except.error ex) :
    find_classes_in_module module_prefixes importMembers module_name =
      ([], [("error finding classes in module: ") ++ ex]) := by
  unfold find_classes_in_module
  rw [h]

/-- Witness for C6 at a concrete failing import. -/
theorem c6_import_failure_swallowed_witness :
    find_classes_in_module ["p"] (fun _ => Except.error ("boom")) ("m") =
      ([], [("error finding classes in module: boom")]) :=
  c6_import_failure_swallowed ["p"] (fun _ => Except.error ("boom")) ("m") ("boom") rfl

/-! ## Claim C10: `run` hits an unbound `sys` when imported as a library -/

/-- C10: when the module was imported as a library (the entry-point block not
executed), `sys` is not among the module's global names, so `run`'s first
statement raises `NameError` and neither traversal nor file write occurs. -/
theorem c10_run_name_error_as_library :
    (("sys" : String) ∈ moduleTopLevelNames false) = False ∧
    run_model false = Except.error ("NameError: name sys is not defined") := by
  constructor
  · simp [moduleTopLevelNames]
  · rfl

/-! ## Claim C9: an excluded package directory is not recursed into -/

/-- C9: when a package directory's dotted name fails the inclusion filter,
traversal adds nothing for the directory or any of its descendants: the
mapping is returned exactly as it was. -/
theorem c9_excluded_dir_adds_nothing (module_prefixes : List String)
    (findClasses : String → List String) (n : String) (sub : List FSEntry)
    (parent : Option String) (modules : List (String × List String))
    (h : include_module module_prefixes (qualifyName parent n) = false) :
    traverse_modules module_prefixes findClasses [FSEntry.dir n sub] parent modules =
      modules := by
  show traverse_modules module_prefixes findClasses []
      parent (traverse_entry module_prefixes findClasses (FSEntry.dir n sub) parent modules) =
    modules
  show traverse_entry module_prefixes findClasses (FSEntry.dir n sub) parent modules = modules
  unfold traverse_entry
  rw [h]
  split
  · rfl
  · split
    · rfl
    · rfl

/-- Witness for C9: with prefix list `['a.b']` the directory `a` fails the
filter (while the dotted name `a.b` of its sub-package would pass it), so
module `a.b` is never discovered. -/
theorem c9_excluded_dir_adds_nothing_witness :
    include_module ["a.b"] (qualifyName none ("a")) = false ∧
    include_module ["a.b"] ("a.b") = true ∧
    traverse_modules ["a.b"] (fun _ => [])
      [FSEntry.dir ("a") [FSEntry.file ("__init__.py"),
        FSEntry.dir ("b") [FSEntry.file ("__init__.py")]]] none [] = [] := by
  refine ⟨by decide, by decide, ?_⟩
  exact c9_excluded_dir_adds_nothing ["a.b"] (fun _ => []) ("a") _ none [] (by decide)

/-! ## Claim C8: skip-set entries are ignored entirely -/

/-- C8: traversal of any entry list coincides with traversal of the list
with all skip-set-named entries removed, for every prefix list, class
oracle, parent and accumulated mapping: an entry named `__init__.py`,
`setup.py` or `tests` contributes nothing, so it never appears as a key. -/
theorem c8_skip_set_entries_ignored (module_prefixes : List String)
    (findClasses : String → List String) (entries : List FSEntry) (parent : Option String)
    (modules : List (String × List String)) :
    traverse_modules module_prefixes findClasses entries parent modules =
      traverse_modules module_prefixes findClasses
        (entries.filter fun e => FSEntry.name e ∉ SKIPPED_FILENAMES) parent modules := by
  induction entries generalizing modules with
  | nil => rfl
  | cons e rest ih =>
    by_cases h : FSEntry.name e ∈ SKIPPED_FILENAMES
    · have hentry : traverse_entry module_prefixes findClasses e parent modules = modules := by
        cases e with
        | file n =>
          simp only [FSEntry.name] at h
          simp only [traverse_entry]
          rw [if_pos h]
        | dir n sub =>
          simp only [FSEntry.name] at h
          simp only [traverse_entry]
          rw [if_pos h]
      have hfilter :
          (e :: rest).filter (fun e => FSEntry.name e ∉ SKIPPED_FILENAMES) =
            rest.filter (fun e => FSEntry.name e ∉ SKIPPED_FILENAMES) := by
        simp [List.filter_cons, h]
      rw [hfilter]
      show traverse_modules module_prefixes findClasses rest parent
          (traverse_entry module_prefixes findClasses e parent modules) = _
      rw [hentry]
      exact ih modules
    · have hfilter :
          (e :: rest).filter (fun e => FSEntry.name e ∉ SKIPPED_FILENAMES) =
            e :: rest.filter (fun e => FSEntry.name e ∉ SKIPPED_FILENAMES) := by
        simp [List.filter_cons, h]
      rw [hfilter]
      show traverse_modules module_prefixes findClasses rest parent
          (traverse_entry module_prefixes findClasses e parent modules) = _
      exact ih _

/-! ## Claim C3: the inclusion filter and what gets recorded -/

/-- C3 counterexample: with prefix list `['proj_']`, a plain source file
`other_mod.py` is still recorded as key `other_mod` in the traversal result,
although its dotted name fails the inclusion filter; the claim that such a
module does not appear as a key is false for file modules. -/
theorem c3_file_module_recorded_despite_filter :
    include_module ["proj_"] ("other_mod") = false ∧
    traverse_modules ["proj_"] (fun _ => []) [FSEntry.file ("other_mod.py")] none [] =
      [(("other_mod"), [])] := by decide

/-- C3 amended: the inclusion filter gates the recording of package
directories (`proj_core` recorded, `other_pkg` not), while file modules are
recorded as keys unconditionally (`other_mod.py` yields key `other_mod`);
the filter still excludes classes by their declaring module, so a class
declared in `other_mod` is dropped even when found among the members of the
included module `proj_core`. -/
theorem c3_filter_applies_to_dirs_and_class_origins :
    traverse_modules ["proj_"] (fun _ => [])
      [FSEntry.dir ("proj_core") [FSEntry.file ("__init__.py")],
       FSEntry.dir ("other_pkg") [FSEntry.file ("__init__.py")],
       FSEntry.file ("other_mod.py")] none [] =
      [(("proj_core"), []), (("other_mod"), [])] ∧
    find_classes_in_module ["proj_"]
      (fun _ => Except.ok
        [⟨("Foo"), true, ("other_mod"), ("Foo")⟩, ⟨("Bar"), true, ("proj_core"), ("Bar")⟩])
      ("proj_core") = ([("Bar")], []) := by decide

/-! ## Claims C1 and C2: the truthiness bugs in `_generate_docs_index` -/

/-- C1: on a document that contains the begin marker but no end marker
(here, a document consisting of exactly the begin marker), the patcher does
NOT raise: `str.find` returns `-1`, the test `if not end_mark_location`
only fires on `0`, so the operation completes with `replace_end = 24` and
overwrites the file with corrupted content. -/
theorem c1_missing_end_marker_not_raised :
    containsSub BEGIN_MARK BEGIN_MARK = true ∧
    containsSub BEGIN_MARK END_MARK = false ∧
    (generate_docs_index BEGIN_MARK (("X").data)).result.isOk = true ∧
    (generate_docs_index BEGIN_MARK (("X").data)).writes ≠ [] ∧
    (generate_docs_index BEGIN_MARK (("X").data)).fileContent ≠ BEGIN_MARK := by decide

/-- C2: on a document containing neither the begin marker nor the fallback
anchor (here, `hello`), the patcher does NOT raise: `find` returns `-1`,
which is truthy, so `-1` is used as the splice position: the document's last
character is cut off, the managed block is appended, and the file is
rewritten with the changed content. -/
theorem c2_missing_anchor_not_raised :
    containsSub (("hello").data) BEGIN_MARK = false ∧
    containsSub (("hello").data) INITIAL_MARK = false ∧
    (generate_docs_index (("hello").data) (("B").data)).result.isOk = true ∧
    (generate_docs_index (("hello").data) (("B").data)).writes ≠ [] ∧
    (generate_docs_index (("hello").data) (("B").data)).fileContent ≠ ("hello").data := by
  decide

/-! ## Claim C7: the formatter emits modules and classes in sorted order -/

theorem str_foldl_append (ys : List String) (a : String) :
    ys.foldl (fun d x => d ++ x) a = a ++ String.join ys := by
  induction ys generalizing a with
  | nil => simp [String.join, String.append_empty]
  | cons y ys ih =>
    simp only [List.foldl]
    rw [ih (a ++ y)]
    have hj : String.join (y :: ys) = y ++ String.join ys := by
      show List.foldl (fun d x => d ++ x) ("") (y :: ys) = _
      simp only [List.foldl]
      rw [ih (("") ++ y), String.empty_append]
    rw [hj, String.append_assoc]

theorem str_join_cons (y : String) (ys : List String) :
    String.join (y :: ys) = y ++ String.join ys := by
  show List.foldl (fun d x => d ++ x) ("") (y :: ys) = _
  simp only [List.foldl]
  rw [str_foldl_append ys (("") ++ y), String.empty_append]

theorem str_foldl_append_map {β : Type} (g : β → String) (l : List β) (a : String) :
    l.foldl (fun d x => d ++ g x) a = a ++ String.join (l.map g) := by
  induction l generalizing a with
  | nil => simp [String.join, String.append_empty]
  | cons x xs ih =>
    simp only [List.foldl, List.map]
    rw [ih (a ++ g x), str_join_cons, String.append_assoc]

theorem lexLe_total (as bs : List Char) : lexLe as bs = true ∨ lexLe bs as = true := by
  induction as generalizing bs with
  | nil => exact Or.inl rfl
  | cons a as ih =>
    cases bs with
    | nil => exact Or.inr rfl
    | cons b bs =>
      by_cases hab : a = b
      · subst hab
        simp only [lexLe, if_pos rfl]
        exact ih bs
      · have hts : a.toNat ≠ b.toNat := fun hn => hab (Char.eq_of_val_eq (UInt32.ext hn))
        rcases Nat.lt_trichotomy a.toNat b.toNat with h | h | h
        · left
          simp only [lexLe]
          rw [if_neg hab]
          exact decide_eq_true h
        · exact absurd h hts
        · right
          simp only [lexLe]
          rw [if_neg (Ne.symm hab)]
          exact decide_eq_true h

theorem lexLe_trans (as bs cs : List Char) (h1 : lexLe as bs = true)
    (h2 : lexLe bs cs = true) : lexLe as cs = true := by
  induction as generalizing bs cs with
  | nil => rfl
  | cons a as ih =>
    cases bs with
    | nil => exact absurd h1 (by simp [lexLe])
    | cons b bs =>
      cases cs with
      | nil => exact absurd h2 (by simp [lexLe])
      | cons c cs =>
        by_cases hab : a = b
        · subst hab
          simp only [lexLe, if_pos rfl] at h1
          by_cases hac : a = c
          · subst hac
            simp only [lexLe, if_pos rfl] at h2 ⊢
            exact ih bs cs h1 h2
          · simp only [lexLe] at h2 ⊢
            rw [if_neg hac] at h2 ⊢
            exact h2
        · simp only [lexLe] at h1
          rw [if_neg hab] at h1
          have hlt1 : a.toNat < b.toNat := of_decide_eq_true h1
          by_cases hbc : b = c
          · subst hbc
            simp only [lexLe]
            rw [if_neg hab]
            exact decide_eq_true hlt1
          · simp only [lexLe] at h2
            rw [if_neg hbc] at h2
            have hlt2 : b.toNat < c.toNat := of_decide_eq_true h2
            have hlt : a.toNat < c.toNat := Nat.lt_trans hlt1 hlt2
            have hac : a ≠ c := by
              intro he
              subst he
              exact absurd hlt (Nat.lt_irrefl _)
            simp only [lexLe]
            rw [if_neg hac]
            exact decide_eq_true hlt

instance : IsTotal String pyStrLe := ⟨fun a b => lexLe_total a.data b.data⟩

instance : IsTrans String pyStrLe := ⟨fun a b c => lexLe_trans a.data b.data c.data⟩

/-- C7: the formatter's output is the concatenation, over the module names
in sorted order, of the module's `automodule` block followed by the
`autoclass` blocks of its classes in sorted order; both orders are sorted
under the Python string order. -/
theorem c7_formatter_emits_in_sorted_order (modules : List (String × List String)) :
    sphinx_formatter modules =
      String.join ((pySorted (modules.map Prod.fst)).map fun mod =>
        automoduleBlock mod ++
          String.join ((pySorted (dictGet modules mod)).map autoclassBlock)) ∧
    List.Sorted pyStrLe (pySorted (modules.map Prod.fst)) ∧
    ∀ mod, List.Sorted pyStrLe (pySorted (dictGet modules mod)) := by
  refine ⟨?_, List.sorted_insertionSort pyStrLe _,
    fun mod => List.sorted_insertionSort pyStrLe _⟩
  unfold sphinx_formatter
  have hinner : ∀ (data mod : String),
      (pySorted (dictGet modules mod)).foldl (fun d cl => d ++ autoclassBlock cl)
        (data ++ automoduleBlock mod) =
      data ++ (automoduleBlock mod ++
        String.join ((pySorted (dictGet modules mod)).map autoclassBlock)) := by
    intro data mod
    rw [str_foldl_append_map autoclassBlock _ (data ++ automoduleBlock mod),
      String.append_assoc]
  simp only [hinner]
  rw [str_foldl_append_map
    (fun mod => automoduleBlock mod ++
      String.join ((pySorted (dictGet modules mod)).map autoclassBlock))
    (pySorted (modules.map Prod.fst)) ("")]
  rw [String.empty_append]

/-! ## Claim C4: machinery about `findFrom` and first occurrences -/

theorem findFrom_none_no_occ (s pat : List Char) (i : Nat)
    (h : findFrom s pat i = none) : ∀ j, ¬ pat <+: s.drop j := by
  induction s generalizing i with
  | nil =>
    intro j hpre
    rw [List.drop_nil] at hpre
    simp only [findFrom] at h
    split at h
    · cases h
    · next hcond => exact hcond (List.isPrefixOf_iff_prefix.mpr hpre)
  | cons c rest ih =>
    intro j
    simp only [findFrom] at h
    split at h
    · cases h
    · next hcond =>
      cases j with
      | zero =>
        intro hpre
        rw [List.drop_zero] at hpre
        exact hcond (List.isPrefixOf_iff_prefix.mpr hpre)
      | succ k =>
        show ¬ pat <+: (c :: rest).drop (k + 1)
        exact ih (i + 1) h k

theorem findFrom_of_first (s pat : List Char) (k i : Nat)
    (hk : pat <+: s.drop k) (hmin : ∀ m, m < k → ¬ pat <+: s.drop m) :
    findFrom s pat i = some (i + k) := by
  induction s generalizing k i with
  | nil =>
    cases k with
    | zero =>
      rw [List.drop_nil] at hk
      simp only [findFrom, Nat.add_zero]
      rw [if_pos (List.isPrefixOf_iff_prefix.mpr hk)]
    | succ k =>
      have h0 := hmin 0 (Nat.succ_pos k)
      rw [List.drop_nil] at hk
      rw [List.drop_nil] at h0
      exact absurd hk h0
  | cons c rest ih =>
    cases k with
    | zero =>
      rw [List.drop_zero] at hk
      simp only [findFrom, Nat.add_zero]
      rw [if_pos (List.isPrefixOf_iff_prefix.mpr hk)]
    | succ k =>
      have h0 : ¬ pat <+: (c :: rest) := by
        have := hmin 0 (Nat.succ_pos k)
        rwa [List.drop_zero] at this
      simp only [findFrom]
      rw [if_neg fun hb => h0 (List.isPrefixOf_iff_prefix.mp hb)]
      have hk2 : pat <+: rest.drop k := hk
      have hmin2 : ∀ m, m < k → ¬ pat <+: rest.drop m := fun m hm =>
        hmin (m + 1) (Nat.succ_lt_succ hm)
      rw [ih k (i + 1) hk2 hmin2]
      congr 1
      omega

theorem no_occ_of_containsSub (s pat : List Char) (h : containsSub s pat = false) :
    ∀ i, ¬ pat <+: s.drop i := by
  unfold containsSub at h
  cases hf : findFrom s pat 0 with
  | none => exact findFrom_none_no_occ s pat 0 hf
  | some k => rw [hf] at h; cases h

theorem pyTake_natCast (s : List Char) (n : Nat) : pyTake s (n : Int) = s.take n := by
  unfold pyTake pyClampIdx
  rw [if_neg (by exact not_lt.mpr (Int.natCast_nonneg n))]
  rw [Int.toNat_natCast]
  rcases Nat.le_total n s.length with h | h
  · rw [Nat.min_eq_left h]
  · rw [Nat.min_eq_right h, List.take_length, List.take_of_length_le h]

theorem pyDrop_natCast (s : List Char) (n : Nat) : pyDrop s (n : Int) = s.drop n := by
  unfold pyDrop pyClampIdx
  rw [if_neg (by exact not_lt.mpr (Int.natCast_nonneg n))]
  rw [Int.toNat_natCast]
  rcases Nat.le_total n s.length with h | h
  · rw [Nat.min_eq_left h]
  · rw [Nat.min_eq_right h, List.drop_length, List.drop_of_length_le h]

theorem prefix_append_split {pat x B : List Char} (h : pat <+: x ++ B) :
    pat <+: x ∨ (x <+: pat ∧ (pat.drop x.length) <+: B) := by
  rcases List.prefix_or_prefix_of_prefix h (List.prefix_append x B) with h1 | h1
  · exact Or.inl h1
  · right
    refine ⟨h1, ?_⟩
    obtain ⟨t, ht⟩ := h1
    have hdrop : pat.drop x.length = t := by rw [← ht, List.drop_left]
    rw [hdrop]
    rw [← ht] at h
    exact (List.prefix_append_right_inj x).mp h

theorem prefix_of_append_of_length_le {u A B : List Char} (h : u <+: A ++ B)
    (hl : u.length ≤ A.length) : u <+: A := by
  rcases prefix_append_split h with h1 | ⟨h1, _⟩
  · exact h1
  · have heq : A = u := h1.eq_of_length (Nat.le_antisymm h1.length_le hl)
    rw [heq]

theorem suffix_of_append_of_length_le {u A B : List Char} (h : u <:+ A ++ B)
    (hl : u.length ≤ B.length) : u <:+ B := by
  rw [← List.reverse_prefix] at h ⊢
  rw [List.reverse_append] at h
  exact prefix_of_append_of_length_le h (by simpa using hl)

theorem no_occ_before {pat : List Char} (A B : List Char)
    (hA : ∀ i, ¬ pat <+: A.drop i)
    (hs : ∀ d, 0 < d → d < pat.length → ¬ ((pat.take d) <:+ A ∧ (pat.drop d) <+: B)) :
    ∀ i, i < A.length → ¬ pat <+: (A ++ B).drop i := by
  intro i hi hocc
  rw [List.drop_append_eq_append_drop, Nat.sub_eq_zero_of_le (le_of_lt hi),
    List.drop_zero] at hocc
  rcases prefix_append_split hocc with h1 | ⟨h1, h2⟩
  · exact hA i h1
  · have hdpos : 0 < (A.drop i).length := by
      rw [List.length_drop]
      omega
    have hdle : (A.drop i).length ≤ pat.length := h1.length_le
    by_cases hdeq : (A.drop i).length = pat.length
    · have heq : A.drop i = pat := h1.eq_of_length hdeq
      exact hA i (heq ▸ List.prefix_refl pat)
    · have hdlt : (A.drop i).length < pat.length := lt_of_le_of_ne hdle hdeq
      apply hs (A.drop i).length hdpos hdlt
      constructor
      · have htake : A.drop i = pat.take (A.drop i).length :=
          List.prefix_iff_eq_take.mp h1
        rw [← htake]
        exact List.drop_suffix i A
      · exact h2

theorem no_occ_append {pat : List Char} (A B : List Char)
    (hA : ∀ i, ¬ pat <+: A.drop i) (hB : ∀ i, ¬ pat <+: B.drop i)
    (hs : ∀ d, 0 < d → d < pat.length → ¬ ((pat.take d) <:+ A ∧ (pat.drop d) <+: B)) :
    ∀ i, ¬ pat <+: (A ++ B).drop i := by
  intro i hocc
  by_cases hi : i < A.length
  · exact no_occ_before A B hA hs i hi hocc
  · rw [List.drop_append_eq_append_drop,
      List.drop_eq_nil_of_le (not_lt.mp hi), List.nil_append] at hocc
    exact hB (i - A.length) hocc

/-- No nonempty proper suffix of the begin marker is one of its prefixes. -/
theorem begin_mark_drop_not_prefix :
    ∀ d, d < BEGIN_MARK.length → 0 < d → ¬ BEGIN_MARK.drop d <+: BEGIN_MARK := by decide

/-- No nonempty proper suffix of the fallback anchor is one of its prefixes. -/
theorem initial_mark_drop_not_prefix :
    ∀ d, d < INITIAL_MARK.length → 0 < d → ¬ INITIAL_MARK.drop d <+: INITIAL_MARK := by decide

/-- No nonempty proper suffix of the end marker is one of its prefixes. -/
theorem end_mark_drop_not_prefix :
    ∀ d, d < END_MARK.length → 0 < d → ¬ END_MARK.drop d <+: END_MARK := by decide

/-- No nonempty proper suffix of the end marker is a prefix of the begin
marker. -/
theorem end_mark_drop_not_prefix_begin :
    ∀ d, d < END_MARK.length → 0 < d → ¬ END_MARK.drop d <+: BEGIN_MARK := by decide

/-- No proper prefix of the end marker is a suffix of the begin marker. -/
theorem end_mark_take_not_suffix_begin :
    ∀ d, d < END_MARK.length → 0 < d → ¬ END_MARK.take d <:+ BEGIN_MARK := by decide

/-- The end marker does not occur inside the begin marker. -/
theorem end_mark_not_in_begin : containsSub BEGIN_MARK END_MARK = false := by decide

/-- First occurrence of a marker placed right after a clean prefix, provided
no nonempty proper suffix of the marker is one of its prefixes. -/
theorem findFrom_self_marked (mark Q rest : List Char)
    (hdrop : ∀ d, d < mark.length → 0 < d → ¬ mark.drop d <+: mark)
    (hQ : ∀ i, ¬ mark <+: Q.drop i) :
    findFrom (Q ++ (mark ++ rest)) mark 0 = some Q.length := by
  have hk : mark <+: (Q ++ (mark ++ rest)).drop Q.length := by
    rw [List.drop_left]
    exact List.prefix_append mark rest
  have hmin : ∀ m, m < Q.length → ¬ mark <+: (Q ++ (mark ++ rest)).drop m := by
    apply no_occ_before Q (mark ++ rest) hQ
    intro d h0 hlt hand
    have hp : mark.drop d <+: mark :=
      prefix_of_append_of_length_le hand.2
        (by rw [List.length_drop]; exact Nat.sub_le _ _)
    exact hdrop d hlt h0 hp
  have := findFrom_of_first (Q ++ (mark ++ rest)) mark Q.length 0 hk
    (fun m hm => hmin m hm)
  rwa [Nat.zero_add] at this

/-- First occurrence of the begin marker in a document of the form
`Q ++ BEGIN_MARK ++ rest` with no occurrence in `Q`. -/
theorem findFrom_begin (Q rest : List Char)
    (hQ : ∀ i, ¬ BEGIN_MARK <+: Q.drop i) :
    findFrom (Q ++ (BEGIN_MARK ++ rest)) BEGIN_MARK 0 = some Q.length :=
  findFrom_self_marked BEGIN_MARK Q rest begin_mark_drop_not_prefix hQ

/-- First occurrence of the fallback anchor in a document of the form
`Q ++ INITIAL_MARK ++ rest` with no occurrence in `Q`. -/
theorem findFrom_initial (Q rest : List Char)
    (hQ : ∀ i, ¬ INITIAL_MARK <+: Q.drop i) :
    findFrom (Q ++ (INITIAL_MARK ++ rest)) INITIAL_MARK 0 = some Q.length :=
  findFrom_self_marked INITIAL_MARK Q rest initial_mark_drop_not_prefix hQ

/-- First occurrence of the end marker in a document of the form
`Q ++ BEGIN_MARK ++ body ++ END_MARK ++ R`, when the end marker occurs
neither in `Q` nor in `body`. -/
theorem findFrom_end (Q body R : List Char)
    (hQ : ∀ i, ¬ END_MARK <+: Q.drop i)
    (hbody : ∀ i, ¬ END_MARK <+: body.drop i) :
    findFrom (Q ++ (BEGIN_MARK ++ (body ++ (END_MARK ++ R)))) END_MARK 0 =
      some (Q.length + BEGIN_MARK.length + body.length) := by
  have hassoc : Q ++ (BEGIN_MARK ++ (body ++ (END_MARK ++ R))) =
      (Q ++ (BEGIN_MARK ++ body)) ++ (END_MARK ++ R) := by
    simp [List.append_assoc]
  rw [hassoc]
  have hBb : ∀ i, ¬ END_MARK <+: (BEGIN_MARK ++ body).drop i := by
    apply no_occ_append BEGIN_MARK body
      (no_occ_of_containsSub BEGIN_MARK END_MARK end_mark_not_in_begin) hbody
    intro d h0 hlt hand
    exact end_mark_take_not_suffix_begin d hlt h0 hand.1
  have hA : ∀ i, ¬ END_MARK <+: (Q ++ (BEGIN_MARK ++ body)).drop i := by
    apply no_occ_append Q (BEGIN_MARK ++ body) hQ hBb
    intro d h0 hlt hand
    have hp : END_MARK.drop d <+: BEGIN_MARK :=
      prefix_of_append_of_length_le hand.2
        (by
          rw [List.length_drop]
          have hle : END_MARK.length ≤ BEGIN_MARK.length := by decide
          omega)
    exact end_mark_drop_not_prefix_begin d hlt h0 hp
  have hk : END_MARK <+:
      ((Q ++ (BEGIN_MARK ++ body)) ++ (END_MARK ++ R)).drop
        (Q ++ (BEGIN_MARK ++ body)).length := by
    rw [List.drop_left]
    exact List.prefix_append END_MARK R
  have hmin : ∀ m, m < (Q ++ (BEGIN_MARK ++ body)).length →
      ¬ END_MARK <+: ((Q ++ (BEGIN_MARK ++ body)) ++ (END_MARK ++ R)).drop m := by
    apply no_occ_before _ _ hA
    intro d h0 hlt hand
    have hp : END_MARK.drop d <+: END_MARK :=
      prefix_of_append_of_length_le hand.2
        (by rw [List.length_drop]; exact Nat.sub_le _ _)
    exact end_mark_drop_not_prefix d hlt h0 hp
  have hres := findFrom_of_first ((Q ++ (BEGIN_MARK ++ body)) ++ (END_MARK ++ R))
    END_MARK (Q ++ (BEGIN_MARK ++ body)).length 0 hk hmin
  rw [Nat.zero_add] at hres
  rw [hres]
  congr 1
  simp only [List.length_append]
  omega

/-- Behaviour of the patcher when both markers are found at nonzero
positions: the span from the begin marker to the end of the end marker is
replaced, with a single leading newline. -/
theorem generate_marker_path (doc body : List Char) (b e : Nat)
    (hb : findFrom doc BEGIN_MARK 0 = some b)
    (he : findFrom doc END_MARK 0 = some e) (hene : e ≠ 0) :
    generate_docs_index doc body =
      { result := Except.ok (),
        fileContent := doc.take b ++ [Char.ofNat 10] ++ BEGIN_MARK ++ body ++
          END_MARK ++ doc.drop (e + END_MARK.length),
        writes := [doc.take b ++ [Char.ofNat 10] ++ BEGIN_MARK ++ body ++
          END_MARK ++ doc.drop (e + END_MARK.length)] } := by
  have hpb : pyFind doc BEGIN_MARK = (b : Int) := by unfold pyFind; rw [hb]
  have hpe : pyFind doc END_MARK = (e : Int) := by unfold pyFind; rw [he]
  unfold generate_docs_index
  rw [hpb, hpe]
  rw [if_neg (by exact not_lt.mpr (Int.natCast_nonneg b))]
  rw [if_neg (by
    intro hz
    exact hene (by exact_mod_cast hz))]
  unfold spliced
  have hcast : (e : Int) + (END_MARK.length : Int) =
      ((e + END_MARK.length : Nat) : Int) := by push_cast; ring
  rw [hcast, pyTake_natCast, pyDrop_natCast]
  simp only [List.append_nil]

/-- Behaviour of the patcher when the begin marker is absent and the
fallback anchor is found at a nonzero position: the managed block is
inserted before the anchor, followed by two newlines. -/
theorem generate_anchor_path (doc body : List Char) (a : Nat)
    (hnb : findFrom doc BEGIN_MARK 0 = none)
    (ha : findFrom doc INITIAL_MARK 0 = some a) (hane : a ≠ 0) :
    generate_docs_index doc body =
      { result := Except.ok (),
        fileContent := doc.take a ++ BEGIN_MARK ++ body ++ END_MARK ++
          [Char.ofNat 10, Char.ofNat 10] ++ doc.drop a,
        writes := [doc.take a ++ BEGIN_MARK ++ body ++ END_MARK ++
          [Char.ofNat 10, Char.ofNat 10] ++ doc.drop a] } := by
  have hpb : pyFind doc BEGIN_MARK = -1 := by unfold pyFind; rw [hnb]
  have hpa : pyFind doc INITIAL_MARK = (a : Int) := by unfold pyFind; rw [ha]
  unfold generate_docs_index
  rw [hpb, hpa]
  rw [if_pos (by norm_num)]
  rw [if_neg (by
    intro hz
    exact hane (by exact_mod_cast hz))]
  unfold spliced
  rw [pyTake_natCast, pyDrop_natCast]
  simp only [List.append_nil]

/-- One marker-path run on a well-formed marked document
`P ++ BEGIN_MARK ++ M ++ END_MARK ++ S`: the old region content `M` is
replaced by the new body, with one newline inserted before the begin
marker. -/
theorem patch_marked_doc (P M S body : List Char)
    (hPB : ∀ i, ¬ BEGIN_MARK <+: P.drop i)
    (hPE : ∀ i, ¬ END_MARK <+: P.drop i)
    (hME : ∀ i, ¬ END_MARK <+: M.drop i) :
    generate_docs_index (P ++ (BEGIN_MARK ++ (M ++ (END_MARK ++ S)))) body =
      { result := Except.ok (),
        fileContent := (P ++ [Char.ofNat 10]) ++
          (BEGIN_MARK ++ (body ++ (END_MARK ++ S))),
        writes := [(P ++ [Char.ofNat 10]) ++
          (BEGIN_MARK ++ (body ++ (END_MARK ++ S)))] } := by
  have hb := findFrom_begin P (M ++ (END_MARK ++ S)) hPB
  have he := findFrom_end P M S hPE hME
  have hene : P.length + BEGIN_MARK.length + M.length ≠ 0 := by
    have hlen : BEGIN_MARK.length = 27 := rfl
    omega
  rw [generate_marker_path _ body _ _ hb he hene]
  have htake : (P ++ (BEGIN_MARK ++ (M ++ (END_MARK ++ S)))).take P.length = P :=
    List.take_left P _
  have hdrop : (P ++ (BEGIN_MARK ++ (M ++ (END_MARK ++ S)))).drop
      (P.length + BEGIN_MARK.length + M.length + END_MARK.length) = S := by
    have hshape : P ++ (BEGIN_MARK ++ (M ++ (END_MARK ++ S))) =
        (P ++ (BEGIN_MARK ++ (M ++ END_MARK))) ++ S := by
      simp [List.append_assoc]
    rw [hshape, List.drop_left' (by simp only [List.length_append]; omega)]
  rw [htake, hdrop]
  congr 1 <;> simp [List.append_assoc]

/-- One anchor-path run on a document `P ++ INITIAL_MARK ++ S` that has no
begin marker anywhere and a nonempty prefix before the anchor: the managed
block (markers included) is installed before the anchor. -/
theorem patch_anchor_doc (P S body : List Char)
    (hnb : findFrom (P ++ (INITIAL_MARK ++ S)) BEGIN_MARK 0 = none)
    (hPI : ∀ i, ¬ INITIAL_MARK <+: P.drop i)
    (hP : P ≠ []) :
    generate_docs_index (P ++ (INITIAL_MARK ++ S)) body =
      { result := Except.ok (),
        fileContent := P ++ (BEGIN_MARK ++ (body ++ (END_MARK ++
          ([Char.ofNat 10, Char.ofNat 10] ++ (INITIAL_MARK ++ S))))),
        writes := [P ++ (BEGIN_MARK ++ (body ++ (END_MARK ++
          ([Char.ofNat 10, Char.ofNat 10] ++ (INITIAL_MARK ++ S)))))] } := by
  have ha := findFrom_initial P S hPI
  have hane : P.length ≠ 0 := by
    intro h
    exact hP (List.length_eq_zero.mp h)
  rw [generate_anchor_path _ body _ hnb ha hane]
  have htake : (P ++ (INITIAL_MARK ++ S)).take P.length = P := List.take_left P _
  have hdrop : (P ++ (INITIAL_MARK ++ S)).drop P.length = INITIAL_MARK ++ S :=
    List.drop_left P _
  rw [htake, hdrop]
  congr 1 <;> simp [List.append_assoc]

/-- The managed region of any document of the form
`Q ++ BEGIN_MARK ++ body ++ END_MARK ++ R`, when the begin marker does not
occur in `Q` and the end marker occurs neither in `Q` nor in `body`, is
exactly `BEGIN_MARK ++ body ++ END_MARK`. -/
theorem managedRegion_marked (Q body R : List Char)
    (hQB : ∀ i, ¬ BEGIN_MARK <+: Q.drop i)
    (hQE : ∀ i, ¬ END_MARK <+: Q.drop i)
    (hbE : ∀ i, ¬ END_MARK <+: body.drop i) :
    managedRegion (Q ++ (BEGIN_MARK ++ (body ++ (END_MARK ++ R)))) =
      some (BEGIN_MARK ++ (body ++ END_MARK)) := by
  have hb := findFrom_begin Q (body ++ (END_MARK ++ R)) hQB
  have he := findFrom_end Q body R hQE hbE
  unfold managedRegion
  rw [hb, he]
  show some (List.take
      (Q.length + BEGIN_MARK.length + body.length + END_MARK.length - Q.length)
      (List.drop Q.length (Q ++ (BEGIN_MARK ++ (body ++ (END_MARK ++ R)))))) =
    some (BEGIN_MARK ++ (body ++ END_MARK))
  rw [List.drop_left]
  congr 1
  have harith : Q.length + BEGIN_MARK.length + body.length + END_MARK.length -
      Q.length = (BEGIN_MARK ++ (body ++ END_MARK)).length := by
    simp only [List.length_append]
    omega
  rw [harith]
  have hshape : BEGIN_MARK ++ (body ++ (END_MARK ++ R)) =
      (BEGIN_MARK ++ (body ++ END_MARK)) ++ R := by
    simp [List.append_assoc]
  rw [hshape, List.take_left]

/-- The begin marker does not occur in a single newline character. -/
theorem begin_mark_not_in_nl :
    containsSub [Char.ofNat 10] BEGIN_MARK = false := by decide

/-- The end marker does not occur in a single newline character. -/
theorem end_mark_not_in_nl :
    containsSub [Char.ofNat 10] END_MARK = false := by decide

/-- No nonempty proper suffix of the begin marker is a prefix of a newline. -/
theorem begin_mark_drop_not_prefix_nl :
    ∀ d, d < BEGIN_MARK.length → 0 < d →
      ¬ BEGIN_MARK.drop d <+: [Char.ofNat 10] := by decide

/-- No nonempty proper suffix of the end marker is a prefix of a newline. -/
theorem end_mark_drop_not_prefix_nl :
    ∀ d, d < END_MARK.length → 0 < d →
      ¬ END_MARK.drop d <+: [Char.ofNat 10] := by decide

/-- Appending a newline to a begin-marker-free text keeps it free. -/
theorem no_occ_begin_nl (Q : List Char) (hQ : ∀ i, ¬ BEGIN_MARK <+: Q.drop i) :
    ∀ i, ¬ BEGIN_MARK <+: (Q ++ [Char.ofNat 10]).drop i := by
  apply no_occ_append Q [Char.ofNat 10] hQ
    (no_occ_of_containsSub _ _ begin_mark_not_in_nl)
  intro d h0 hlt hand
  exact begin_mark_drop_not_prefix_nl d hlt h0 hand.2

/-- Appending a newline to an end-marker-free text keeps it free. -/
theorem no_occ_end_nl (Q : List Char) (hQ : ∀ i, ¬ END_MARK <+: Q.drop i) :
    ∀ i, ¬ END_MARK <+: (Q ++ [Char.ofNat 10]).drop i := by
  apply no_occ_append Q [Char.ofNat 10] hQ
    (no_occ_of_containsSub _ _ end_mark_not_in_nl)
  intro d h0 hlt hand
  exact end_mark_drop_not_prefix_nl d hlt h0 hand.2

/-- C4: running the patcher a second time, with the same rendered body, on
the document produced by a first run yields a document whose managed region
is exactly the single-run region `BEGIN_MARK ++ body ++ END_MARK`: the
second run replaces the region instead of duplicating the body.  Stated for
both first-run paths on a document with a clean prefix `P`, old region
content `M` and suffix `S`: the marker path (document
`P ++ BEGIN_MARK ++ M ++ END_MARK ++ S`) and the fallback-anchor path
(document `P ++ INITIAL_MARK ++ S`, which installs the markers so that the
second run finds them). -/
theorem c4_second_run_preserves_managed_region (P M S body : List Char)
    (hPB : containsSub P BEGIN_MARK = false)
    (hPE : containsSub P END_MARK = false)
    (hPI : containsSub P INITIAL_MARK = false)
    (hME : containsSub M END_MARK = false)
    (hbE : containsSub body END_MARK = false)
    (hP : P ≠ [])
    (hDocB : containsSub (P ++ (INITIAL_MARK ++ S)) BEGIN_MARK = false) :
    (generate_docs_index (P ++ (BEGIN_MARK ++ (M ++ (END_MARK ++ S)))) body).fileContent =
      (P ++ [Char.ofNat 10]) ++ (BEGIN_MARK ++ (body ++ (END_MARK ++ S))) ∧
    (generate_docs_index
        ((P ++ [Char.ofNat 10]) ++ (BEGIN_MARK ++ (body ++ (END_MARK ++ S))))
        body).fileContent =
      ((P ++ [Char.ofNat 10]) ++ [Char.ofNat 10]) ++
        (BEGIN_MARK ++ (body ++ (END_MARK ++ S))) ∧
    managedRegion (((P ++ [Char.ofNat 10]) ++ [Char.ofNat 10]) ++
        (BEGIN_MARK ++ (body ++ (END_MARK ++ S)))) =
      managedRegion ((P ++ [Char.ofNat 10]) ++
        (BEGIN_MARK ++ (body ++ (END_MARK ++ S)))) ∧
    managedRegion ((P ++ [Char.ofNat 10]) ++
        (BEGIN_MARK ++ (body ++ (END_MARK ++ S)))) =
      some (BEGIN_MARK ++ (body ++ END_MARK)) ∧
    (generate_docs_index (P ++ (INITIAL_MARK ++ S)) body).fileContent =
      P ++ (BEGIN_MARK ++ (body ++ (END_MARK ++
        ([Char.ofNat 10, Char.ofNat 10] ++ (INITIAL_MARK ++ S))))) ∧
    (generate_docs_index
        (P ++ (BEGIN_MARK ++ (body ++ (END_MARK ++
          ([Char.ofNat 10, Char.ofNat 10] ++ (INITIAL_MARK ++ S)))))) body).fileContent =
      (P ++ [Char.ofNat 10]) ++ (BEGIN_MARK ++ (body ++ (END_MARK ++
        ([Char.ofNat 10, Char.ofNat 10] ++ (INITIAL_MARK ++ S))))) ∧
    managedRegion ((P ++ [Char.ofNat 10]) ++ (BEGIN_MARK ++ (body ++ (END_MARK ++
        ([Char.ofNat 10, Char.ofNat 10] ++ (INITIAL_MARK ++ S)))))) =
      managedRegion (P ++ (BEGIN_MARK ++ (body ++ (END_MARK ++
        ([Char.ofNat 10, Char.ofNat 10] ++ (INITIAL_MARK ++ S)))))) ∧
    managedRegion (P ++ (BEGIN_MARK ++ (body ++ (END_MARK ++
        ([Char.ofNat 10, Char.ofNat 10] ++ (INITIAL_MARK ++ S)))))) =
      some (BEGIN_MARK ++ (body ++ END_MARK)) := by
  have hPBp := no_occ_of_containsSub P BEGIN_MARK hPB
  have hPEp := no_occ_of_containsSub P END_MARK hPE
  have hPIp := no_occ_of_containsSub P INITIAL_MARK hPI
  have hMEp := no_occ_of_containsSub M END_MARK hME
  have hbEp := no_occ_of_containsSub body END_MARK hbE
  have hQ1B := no_occ_begin_nl P hPBp
  have hQ1E := no_occ_end_nl P hPEp
  have hQ2B := no_occ_begin_nl (P ++ [Char.ofNat 10]) hQ1B
  have hQ2E := no_occ_end_nl (P ++ [Char.ofNat 10]) hQ1E
  have hnb : findFrom (P ++ (INITIAL_MARK ++ S)) BEGIN_MARK 0 = none := by
    unfold containsSub at hDocB
    cases hf : findFrom (P ++ (INITIAL_MARK ++ S)) BEGIN_MARK 0 with
    | none => rfl
    | some k =>
      rw [hf] at hDocB
      simp at hDocB
  refine ⟨?_, ?_, ?_, ?_, ?_, ?_, ?_, ?_⟩
  · rw [patch_marked_doc P M S body hPBp hPEp hMEp]
  · rw [patch_marked_doc (P ++ [Char.ofNat 10]) body S body hQ1B hQ1E hbEp]
  · rw [managedRegion_marked ((P ++ [Char.ofNat 10]) ++ [Char.ofNat 10]) body S
        hQ2B hQ2E hbEp,
      managedRegion_marked (P ++ [Char.ofNat 10]) body S hQ1B hQ1E hbEp]
  · exact managedRegion_marked (P ++ [Char.ofNat 10]) body S hQ1B hQ1E hbEp
  · rw [patch_anchor_doc P S body hnb hPIp hP]
  · rw [patch_marked_doc P body
        ([Char.ofNat 10, Char.ofNat 10] ++ (INITIAL_MARK ++ S)) body hPBp hPEp hbEp]
  · rw [managedRegion_marked (P ++ [Char.ofNat 10]) body
        ([Char.ofNat 10, Char.ofNat 10] ++ (INITIAL_MARK ++ S)) hQ1B hQ1E hbEp,
      managedRegion_marked P body
        ([Char.ofNat 10, Char.ofNat 10] ++ (INITIAL_MARK ++ S)) hPBp hPEp hbEp]
  · exact managedRegion_marked P body
      ([Char.ofNat 10, Char.ofNat 10] ++ (INITIAL_MARK ++ S)) hPBp hPEp hbEp

/-- Witness for C4 at a concrete document: prefix `Intro` plus newline, old
region content `old`, suffix `Tail`, and a rendered body flanked by
newlines. -/
theorem c4_second_run_preserves_managed_region_witness :
    ("Intro\n").data ≠ [] ∧
    managedRegion ((("Intro\n").data ++ [Char.ofNat 10]) ++
        (BEGIN_MARK ++ (("\nBODY\n").data ++ (END_MARK ++ ("\nTail").data)))) =
      some (BEGIN_MARK ++ (("\nBODY\n").data ++ END_MARK)) :=
  ⟨by decide,
    (c4_second_run_preserves_managed_region (("Intro\n").data) (("old").data)
      (("\nTail").data) (("\nBODY\n").data) (by decide) (by decide) (by decide)
      (by decide) (by decide) (by decide) (by decide)).2.2.2.1⟩
